import Mathlib

/-!
Verification development for the cadence-client workflow core
(`internal_workflow.go`, `workflow.go`, and the test-environment file).

The Go code is shallowly embedded: every `interface{}` value is modelled by
`Val := Option Nat` (with `none` playing the role of Go's `nil`), errors by
`Option Err`, and each stateful method becomes an explicit state-passing
function over the corresponding structure.  Channel callbacks (the
`receiveCallback` / `valueCallbackPair.callback` closures) are modelled by
their acceptance verdicts: an `external` callback with a frozen Boolean
verdict (a parked `Send`/`Receive` always accepts; a callback belonging to a
selector that already fired always declines), or an `ownCase i` callback
belonging to the selector currently probing, which accepts exactly when the
selector's `readyBranch` latch is still unset and latches it to case `i`.
The `readyBranch` latch (`rb` below) is threaded through the channel
operations exactly as the Go closures mutate the selector-local variable.
-/

namespace Cadence

/-- Go `interface{}` values carried through channels; `none` is Go's `nil`. -/
abbrev Val := Option Nat

/-- Go `error` payloads; an `Option Err` of `none` is a `nil` error. -/
abbrev Err := Nat

/-- Acceptance callback of a parked sender (`valueCallbackPair.callback`). -/
inductive SendCb where
  | external (accepts : Bool)
  | ownCase (idx : Nat)
deriving DecidableEq, Repr, Inhabited

/-- One entry of `channelImpl.blockedSends`: a value plus its callback. -/
structure SendEntry where
  value : Val
  cb : SendCb
deriving DecidableEq, Repr, Inhabited

/-- Delivery callback of a parked receiver (`receiveCallback`). -/
inductive RecvCb where
  | external (accepts : Bool)
  | ownCase (idx : Nat)
deriving DecidableEq, Repr, Inhabited

/-- Shallow embedding of `channelImpl` (internal_workflow.go lines 99-107). -/
structure channelImpl where
  size : Nat
  buffer : List Val
  blockedSends : List SendEntry
  blockedReceives : List RecvCb
  closed : Bool
  recValue : Option Val
deriving DecidableEq, Repr, Inhabited

/-- Run a blocked sender's callback against the current `readyBranch` latch:
returns its acceptance verdict and the updated latch. -/
def runSendCb (rb : Option Nat) : SendCb → Bool × Option Nat
  | .external b => (b, rb)
  | .ownCase i => match rb with
    | none => (true, some i)
    | some j => (false, some j)

/-- Run a blocked receiver's callback against the current `readyBranch` latch. -/
def runRecvCb (rb : Option Nat) : RecvCb → Bool × Option Nat
  | .external b => (b, rb)
  | .ownCase i => match rb with
    | none => (true, some i)
    | some j => (false, some j)

/-- The `for len(c.blockedSends) > 0` loop of `receiveAsyncImpl`: pop entries
until one accepts; return the accepted value (if any), the remaining queue
and the updated latch. -/
def popSenders : Option Nat → List SendEntry → Option Val × List SendEntry × Option Nat
  | rb, [] => (none, [], rb)
  | rb, e :: rest =>
    let r := runSendCb rb e.cb
    if r.1 then (some e.value, rest, r.2)
    else popSenders r.2 rest

/-- The `for len(c.blockedReceives) > 0` loop of `sendAsyncImpl`. -/
def popReceivers : Option Nat → List RecvCb → Bool × List RecvCb × Option Nat
  | rb, [] => (false, [], rb)
  | rb, k :: rest =>
    let r := runRecvCb rb k
    if r.1 then (true, rest, r.2)
    else popReceivers r.2 rest

/-- Result of `channelImpl.receiveAsyncImpl`. -/
structure RecvOut where
  value : Val
  ok : Bool
  more : Bool
  chan : channelImpl
  rb : Option Nat
deriving DecidableEq, Repr

/-- `channelImpl.receiveAsyncImpl` (internal_workflow.go lines 494-519):
pre-peeked `recValue` first, then buffer head, then the closed check, then
hand-off from blocked senders, otherwise register the callback (if given). -/
def receiveAsyncImpl (cb : Option RecvCb) (rb : Option Nat) (c : channelImpl) : RecvOut :=
  match c.recValue with
  | some v => ⟨v, true, true, { c with recValue := none }, rb⟩
  | none =>
    match c.buffer with
    | v :: rest => ⟨v, true, true, { c with buffer := rest }, rb⟩
    | [] =>
      if c.closed then ⟨none, false, false, c, rb⟩
      else
        match popSenders rb c.blockedSends with
        | (some v, rest, rb') => ⟨v, true, true, { c with blockedSends := rest }, rb'⟩
        | (none, rest, rb') =>
          let c' := { c with blockedSends := rest }
          match cb with
          | some k =>
            ⟨none, false, true, { c' with blockedReceives := c'.blockedReceives ++ [k] }, rb'⟩
          | none => ⟨none, false, true, c', rb'⟩

/-- Result of `channelImpl.sendAsyncImpl`; `none` models the
`panic("Closed channel")`. -/
structure SendOut where
  ok : Bool
  chan : channelImpl
  rb : Option Nat
deriving DecidableEq, Repr

/-- `channelImpl.sendAsyncImpl` (internal_workflow.go lines 553-573):
panics when closed, else hands off to the first accepting blocked receiver,
else appends to the buffer when there is room, else parks the sender
(when a callback pair was provided). -/
def sendAsyncImpl (v : Val) (pair : Option SendCb) (rb : Option Nat) (c : channelImpl) :
    Option SendOut :=
  if c.closed then none
  else
    match popReceivers rb c.blockedReceives with
    | (true, rest, rb') => some ⟨true, { c with blockedReceives := rest }, rb'⟩
    | (false, rest, rb') =>
      let c' := { c with blockedReceives := rest }
      if c'.buffer.length < c'.size then some ⟨true, { c' with buffer := c'.buffer ++ [v] }, rb'⟩
      else
        match pair with
        | some p => some ⟨false, { c' with blockedSends := c'.blockedSends ++ [⟨v, p⟩] }, rb'⟩
        | none => some ⟨false, c', rb'⟩

/-- Result of `channelImpl.Close` (internal_workflow.go lines 575-586): the
flagged channel plus the lists of receiver and sender callbacks that were
invoked (the Go code iterates over both queues without clearing them). -/
structure CloseOut where
  chan : channelImpl
  receiversInvoked : List RecvCb
  sendersInvoked : List SendEntry
deriving DecidableEq, Repr

/-- `channelImpl.Close`. -/
def channelClose (c : channelImpl) : CloseOut :=
  ⟨{ c with closed := true }, c.blockedReceives, c.blockedSends⟩

/-- Outcome of the blocking `channelImpl.Receive` (lines 456-479):
`immediate` when `receiveAsyncImpl` returned `ok || !more`, otherwise the
receiver is parked and the coroutine yields. -/
inductive RecvResult where
  | immediate (v : Val) (more : Bool) (chan : channelImpl)
  | parked (chan : channelImpl)
deriving DecidableEq, Repr

/-- `channelImpl.Receive`: the registered callback always accepts. -/
def channelReceive (c : channelImpl) : RecvResult :=
  let out := receiveAsyncImpl (some (.external true)) none c
  if out.ok || !out.more then .immediate out.value out.more out.chan
  else .parked out.chan

/-- `channelImpl.ReceiveAsyncWithMoreFlag` (lines 486-490): `receiveAsyncImpl`
with a nil callback, returning `(value, ok, more)` and the updated channel. -/
def receiveAsyncWithMoreFlag (c : channelImpl) : Val × Bool × Bool × channelImpl :=
  let out := receiveAsyncImpl none none c
  (out.value, out.ok, out.more, out.chan)

/-- Outcome of the blocking `channelImpl.Send` attempt (lines 521-547). -/
inductive SendResult where
  | panicked
  | completed (chan : channelImpl)
  | parked (chan : channelImpl)
deriving DecidableEq, Repr

/-- `channelImpl.Send`: the submitted pair's callback sets `valueConsumed`
and always accepts. -/
def channelSend (v : Val) (c : channelImpl) : SendResult :=
  match sendAsyncImpl v (some (.external true)) none c with
  | none => .panicked
  | some out => if out.ok then .completed out.chan else .parked out.chan

/-- `channelImpl.SendAsync` (lines 549-551): `sendAsyncImpl` with a nil pair. -/
def sendAsync (v : Val) (c : channelImpl) : Option (Bool × channelImpl) :=
  match sendAsyncImpl v none none c with
  | none => none
  | some out => some (out.ok, out.chan)

/-- One iteration of the `for` loop a parked `Send` resumes into
(lines 536-546): the closed check comes first, so a sender woken by `Close`
panics even though its value-consumed flag was set by the close callback. -/
inductive ResumeOutcome where
  | panicked
  | completed
  | yieldAgain
deriving DecidableEq, Repr

/-- The body of the parked-sender resumption loop of `channelImpl.Send`. -/
def sendResume (closedFlag valueConsumed : Bool) : ResumeOutcome :=
  if closedFlag then .panicked
  else if valueConsumed then .completed
  else .yieldAgain

/-- Shallow embedding of `futureImpl` (internal_workflow.go lines 63-69): a
value, an error, the ready flag, the backing channel (closed to signal
readiness) and the list of chained downstream futures. -/
inductive futureImpl where
  | node (value : Val) (err : Option Err) (ready : Bool) (ch : channelImpl)
      (chained : List futureImpl)
deriving Repr

def futureImpl.value : futureImpl → Val
  | .node v _ _ _ _ => v

def futureImpl.err : futureImpl → Option Err
  | .node _ e _ _ _ => e

def futureImpl.ready : futureImpl → Bool
  | .node _ _ r _ _ => r

def futureImpl.ch : futureImpl → channelImpl
  | .node _ _ _ c _ => c

def futureImpl.chained : futureImpl → List futureImpl
  | .node _ _ _ _ l => l

mutual
/-- `futureImpl.Set` (lines 267-278): panic (`.error`) when already ready;
otherwise store value/err, mark ready, close the backing channel, and set
every chained future with the same `(value, err)`. -/
def futureSet (v : Val) (e : Option Err) : futureImpl → Except Unit futureImpl
  | .node _ _ r ch chd =>
    if r then .error () else
      match futureSetList v e chd with
      | .error u => .error u
      | .ok chd' => .ok (.node v e true (channelClose ch).chan chd')

/-- Propagation of `Set` over the `chained` list. -/
def futureSetList (v : Val) (e : Option Err) : List futureImpl → Except Unit (List futureImpl)
  | [] => .ok []
  | f :: fs =>
    match futureSet v e f with
    | .error u => .error u
    | .ok f' =>
      match futureSetList v e fs with
      | .error u => .error u
      | .ok fs' => .ok (f' :: fs')
end

/-- `futureImpl.SetValue` (lines 280-285): its own ready check, then `Set`. -/
def futureSetValue (v : Val) (f : futureImpl) : Except Unit futureImpl :=
  if f.ready then .error () else futureSet v none f

/-- `futureImpl.SetError` (lines 287-292). -/
def futureSetError (e : Err) (f : futureImpl) : Except Unit futureImpl :=
  if f.ready then .error () else futureSet none (some e) f

/-- Observable outcome of `futureImpl.Get` (lines 225-245).  The Go method
first performs `f.channel.Receive`; `blocked` is the case where that receive
parks the coroutine (channel open and empty), `panicked` covers the
`panic("not closed")` / `panic("not ready")` branches, and `returned` carries
the future's `(value, err)` made visible to the caller together with the
future after the call. -/
inductive GetRes where
  | blocked (f : futureImpl)
  | panicked
  | returned (v : Val) (e : Option Err) (f : futureImpl)
deriving Repr

/-- `futureImpl.Get`: receive from the backing channel FIRST, then check
`more`, then check `ready`, then surface `(value, err)`. -/
def futureGet (f : futureImpl) : GetRes :=
  match f with
  | .node v e r ch chd =>
    match channelReceive ch with
    | .parked ch' => .blocked (.node v e r ch' chd)
    | .immediate _ more ch' =>
      if more then .panicked
      else if r then .returned v e (.node v e r ch' chd)
      else .panicked

/-- `decodeFutureImpl.Get` (lines 1021-1042): identical control flow, but when
the future holds a non-nil value and a nil error the raw bytes are
deserialized through the codec (`decodeFn`). -/
def decodeFutureGet (decodeFn : Val → Except Err Val) (f : futureImpl) : GetRes :=
  match f with
  | .node v e r ch chd =>
    match channelReceive ch with
    | .parked ch' => .blocked (.node v e r ch' chd)
    | .immediate _ more ch' =>
      if more then .panicked
      else if r then
        let f' := futureImpl.node v e r ch' chd
        match e, v with
        | some _, _ => .returned none e f'
        | none, none => .returned none none f'
        | none, some b =>
          match decodeFn (some b) with
          | .error de => .returned none (some de) f'
          | .ok dv => .returned dv none f'
      else .panicked

/-- `futureImpl.Chain` (lines 294-312), called on the downstream future `f`
with argument `src`: panic when `f` is already ready; when `src` is not yet
ready, append `f` to `src`'s chained list; when `src` IS already ready, copy
`src`'s `(value, err)` into `f` and mark it ready — WITHOUT closing `f`'s
backing channel. -/
def futureChain (f src : futureImpl) : Except Unit (futureImpl × futureImpl) :=
  if f.ready then .error ()
  else if !src.ready then
    match src with
    | .node v e r ch chd => .ok (f, .node v e r ch (chd ++ [f]))
  else
    match f with
    | .node _ _ _ ch chd => .ok (.node src.value src.err true ch chd, src)

/-- A fresh `channelImpl` as produced by `NewChannel` (workflow.go 203-213). -/
def newChannelImpl : channelImpl :=
  { size := 0, buffer := [], blockedSends := [], blockedReceives := [],
    closed := false, recValue := none }

/-- A fresh future over a fresh channel, as produced by `NewFuture`
(workflow.go 254-257) and `newDecodeFuture` (internal_workflow.go 1078-1082). -/
def newFutureImpl : futureImpl :=
  .node none none false newChannelImpl []

/-- Calls submitted to the `workflowEnvironment`. -/
inductive EnvCall where
  | executeActivity
  | executeChildWorkflow
  | requestCancelActivity (id : Nat)
  | requestCancelWorkflow (wfID : Nat) (runID : Nat)
deriving DecidableEq, Repr

/-- `ExecuteActivity` (workflow.go lines 282-312).  The two validation steps
(`getValidatedActivityFunction`, `getValidatedActivityOptions`) are passed in
as their `Except` outcomes; on a validation error the fresh decode future is
set with that error and returned with NO environment submission; otherwise
the parameters are submitted via `ExecuteActivity` on the environment. -/
def ExecuteActivityModel (vFunc : Except Err Unit) (vOpts : Except Err Unit) :
    Except Unit (futureImpl × List EnvCall) :=
  let future := newFutureImpl
  match vFunc with
  | .error e =>
    match futureSet none (some e) future with
    | .error u => .error u
    | .ok f' => .ok (f', [])
  | .ok _ =>
    match vOpts with
    | .error e =>
      match futureSet none (some e) future with
      | .error u => .error u
      | .ok f' => .ok (f', [])
    | .ok _ => .ok (future, [.executeActivity])

/-- The pair of futures returned by `ExecuteChildWorkflow`
(`childWorkflowFutureImpl`, internal_workflow.go lines 171-174). -/
structure childWorkflowFutureImpl where
  mainFuture : futureImpl
  executionFuture : futureImpl
deriving Repr

/-- `ExecuteChildWorkflow` (workflow.go lines 330-371): on a validation error
only the main future is set (pre-failed); the execution future stays pending
and nothing is submitted to the environment. -/
def ExecuteChildWorkflowModel (vFunc : Except Err Unit) (vOpts : Except Err Unit) :
    Except Unit (childWorkflowFutureImpl × List EnvCall) :=
  let mainFuture := newFutureImpl
  let executionFuture := newFutureImpl
  match vFunc with
  | .error e =>
    match futureSet none (some e) mainFuture with
    | .error u => .error u
    | .ok f' => .ok (⟨f', executionFuture⟩, [])
  | .ok _ =>
    match vOpts with
    | .error e =>
      match futureSet none (some e) mainFuture with
      | .error u => .error u
      | .ok f' => .ok (⟨f', executionFuture⟩, [])
    | .ok _ => .ok (⟨mainFuture, executionFuture⟩, [.executeChildWorkflow])

/-- The per-channel body of `workflowOptions.getUnhandledSignals`
(internal_workflow.go lines 1008-1019): peek with a nil callback; when a
value came out, report the signal as unhandled and stash the value back into
the channel's one-slot `recValue` cell. -/
def checkSignalChannel (c : channelImpl) : Bool × channelImpl :=
  let out := receiveAsyncImpl none none c
  if out.ok then (true, { out.chan with recValue := some out.value })
  else (false, out.chan)

/-- `getUnhandledSignals` over the `signalChannels` map, modelled as an
association list: collect the names of channels holding a pending value. -/
def getUnhandledSignals : List (Nat × channelImpl) → List Nat × List (Nat × channelImpl)
  | [] => ([], [])
  | (k, c) :: rest =>
    let r := checkSignalChannel c
    let rr := getUnhandledSignals rest
    (if r.1 then k :: rr.1 else rr.1, (k, r.2) :: rr.2)

/-- `WorkflowExecution` identity of a started child workflow. -/
structure WorkflowExecution where
  id : Nat
  runID : Nat
deriving DecidableEq, Repr

/-- Events observable by the cancellation coroutine spawned by
`ExecuteChildWorkflow` (workflow.go lines 349-368): the started-callback
delivering the child execution (recorded only when its error is nil), and the
context-cancellation firing (`ctx.Done()` received with `ErrCanceled`). -/
inductive ChildEvent where
  | started (r : WorkflowExecution) (e : Option Err)
  | cancelRequested
deriving DecidableEq, Repr

/-- One event step: `started` sets the shared `childWorkflowExecution`
pointer iff the callback error is nil; `cancelRequested` issues
`RequestCancelWorkflow` iff the pointer is already set, and is silently
dropped otherwise. -/
def childCancelStep (exec : Option WorkflowExecution) :
    ChildEvent → Option WorkflowExecution × List EnvCall
  | .started r e => (if e = none then some r else exec, [])
  | .cancelRequested =>
    match exec with
    | some x => (some x, [.requestCancelWorkflow x.id x.runID])
    | none => (none, [])

/-- Fold of `childCancelStep` over an event sequence, accumulating the
environment calls issued. -/
def childCancelRun : Option WorkflowExecution → List ChildEvent →
    Option WorkflowExecution × List EnvCall
  | exec, [] => (exec, [])
  | exec, ev :: rest =>
    let s := childCancelStep exec ev
    let r := childCancelRun s.1 rest
    (r.1, s.2 ++ r.2)

/-- `testTimerHandle` (test environment, lines 49-57): the mock fire time,
the numeric timer id, and whether a wall-clock timer is currently armed. -/
structure testTimerHandle where
  timerID : Nat
  mockTimeToFire : Int
  wallTimerSet : Bool
  wallTimeToFire : Int
deriving DecidableEq, Repr, Inhabited

/-- The replacement test of the `nextTimer` selection loop in
`autoFireNextTimer` (lines 445-452): `t` replaces the current candidate when
it fires strictly earlier, or at the same mock time with a smaller id. -/
def timerBefore (t n : testTimerHandle) : Bool :=
  decide (t.mockTimeToFire < n.mockTimeToFire ∨
    (t.mockTimeToFire = n.mockTimeToFire ∧ t.timerID < n.timerID))

/-- The `nextTimer` selection fold over the timer map (iteration order of the
Go map is arbitrary; the fold computes the same minimum for every order). -/
def findNextTimer : List testTimerHandle → Option testTimerHandle
  | [] => none
  | t :: ts => some (ts.foldl (fun next u => if timerBefore u next then u else next) t)

/-- The slice of `testWorkflowEnvironmentImpl` state that
`autoFireNextTimer` reads. -/
structure testEnvState where
  timers : List testTimerHandle
  runningCount : Nat
  mockNow : Int
  wallNow : Int
deriving Repr

/-- Outcome of `autoFireNextTimer` (lines 438-504): `noTimers` /
`keepExistingWall` / `arrangeWall` return false to the main loop; `fired`
returns true after advancing the mock clock to the chosen timer's fire
time. -/
inductive AutoFireRes where
  | noTimers
  | fired (timerID : Nat) (newMockNow : Int)
  | keepExistingWall (timerID : Nat)
  | arrangeWall (timerID : Nat) (wallTimeToFire : Int)
deriving DecidableEq, Repr

/-- `testWorkflowEnvironmentImpl.autoFireNextTimer`. -/
def autoFireNextTimer (env : testEnvState) : AutoFireRes :=
  match findNextTimer env.timers with
  | none => .noTimers
  | some nt =>
    if env.runningCount = 0 then
      .fired nt.timerID (env.mockNow + (nt.mockTimeToFire - env.mockNow))
    else
      let durationToFire := nt.mockTimeToFire - env.mockNow
      let wallTimeToFire := env.wallNow + durationToFire
      if nt.wallTimerSet && decide (nt.wallTimeToFire < wallTimeToFire) then
        .keepExistingWall nt.timerID
      else .arrangeWall nt.timerID wallTimeToFire

/-- One observable step of `startMainLoop` (lines 388-421): the non-blocking
select drains the callback queue first; only when the queue is empty is
`autoFireNextTimer` consulted. -/
inductive MainLoopStep where
  | processedCallback
  | auto (r : AutoFireRes)
deriving DecidableEq, Repr

/-- The head of `startMainLoop`'s iteration. -/
def startMainLoopStep (queue : List Unit) (env : testEnvState) : MainLoopStep :=
  match queue with
  | _ :: _ => .processedCallback
  | [] => .auto (autoFireNextTimer env)

/-- The future view used by a selector's `AddFuture` case: the future's
fields plus an index into the shared channel store for its backing channel
(`selectCase.future`, internal_workflow.go lines 110-118). -/
structure FutRef where
  ready : Bool
  value : Val
  err : Option Err
  ch : Nat
deriving DecidableEq, Repr

/-- One `selectCase`: `AddReceive`, `AddSend` or `AddFuture`
(internal_workflow.go lines 821-838); channels are named by index into the
probe state's channel store so that cases may share a channel. -/
inductive selectCase where
  | recvCase (ch : Nat)
  | sendCase (ch : Nat) (v : Val)
  | futureCase (f : FutRef)
deriving DecidableEq, Repr, Inhabited

/-- State threaded through `selectorImpl.Select`'s probing pass: the shared
channels and the selector-local `readyBranch` latch. -/
structure ProbeSt where
  chans : List channelImpl
  rb : Option Nat
deriving DecidableEq, Repr, Inhabited

/-- Result of probing a single case in the `for _, pair := range s.cases`
loop of `Select` (lines 844-906): the case fires and `Select` returns, or the
case registered its callback and the loop moves on, or the probe panicked
(send on a closed channel; `GetAsync` on a ready-channel future whose `ready`
flag is unset). -/
inductive StepRes where
  | fire (st : ProbeSt)
  | through (st : ProbeSt)
  | panicked
deriving DecidableEq, Repr

/-- Probe case number `idx`.  A receive case calls `receiveAsyncImpl` with
the selector's callback and fires when `ok || !more`, stashing the received
value into the channel's `recValue` peek slot; a send case calls
`sendAsyncImpl` with the selector's pair and fires when it reports `ok`; a
future case calls `GetAsync` (a `receiveAsyncImpl` on the future's backing
channel) and fires when the channel is closed and drained. -/
def stepCase (idx : Nat) (st : ProbeSt) : selectCase → StepRes
  | .recvCase ch =>
    let c := st.chans.getD ch default
    let out := receiveAsyncImpl (some (.ownCase idx)) st.rb c
    if out.ok || !out.more then
      .fire ⟨st.chans.set ch { out.chan with recValue := some out.value }, out.rb⟩
    else
      .through ⟨st.chans.set ch out.chan, out.rb⟩
  | .sendCase ch v =>
    let c := st.chans.getD ch default
    match sendAsyncImpl v (some (.ownCase idx)) st.rb c with
    | none => .panicked
    | some out =>
      if out.ok then .fire ⟨st.chans.set ch out.chan, out.rb⟩
      else .through ⟨st.chans.set ch out.chan, out.rb⟩
  | .futureCase f =>
    let c := st.chans.getD f.ch default
    let out := receiveAsyncImpl (some (.ownCase idx)) st.rb c
    if out.more then .through ⟨st.chans.set f.ch out.chan, out.rb⟩
    else if f.ready then .fire ⟨st.chans.set f.ch out.chan, out.rb⟩
    else .panicked

/-- Outcome of the probing pass over the whole case list. -/
inductive ProbeAll where
  | fired (i : Nat) (st : ProbeSt)
  | through (st : ProbeSt)
  | panicked
deriving DecidableEq, Repr

/-- The probing pass: walk the cases in insertion order, returning at the
first case that fires. -/
def probeCases : List selectCase → Nat → ProbeSt → ProbeAll
  | [], _, st => .through st
  | c :: rest, i, st =>
    match stepCase i st c with
    | .fire st' => .fired i st'
    | .through st' => probeCases rest (i + 1) st'
    | .panicked => .panicked

/-- Outcome of one `selectorImpl.Select` call up to (and excluding) the
parked phase: `firedCase`/`defaulted` return without yielding;
`parkedYield` is the `state.yield` loop at lines 912-919. -/
inductive SelectOutcome where
  | firedCase (i : Nat) (st : ProbeSt)
  | defaulted (st : ProbeSt)
  | parkedYield (st : ProbeSt)
  | panicked
deriving DecidableEq, Repr

/-- `selectorImpl.Select` (lines 844-920): probe all cases in insertion
order; if none fired, run the default when present; otherwise yield. -/
def selectorSelect (cases : List selectCase) (hasDefault : Bool) (st : ProbeSt) :
    SelectOutcome :=
  match probeCases cases 0 st with
  | .fired i st' => .firedCase i st'
  | .panicked => .panicked
  | .through st' => if hasDefault then .defaulted st' else .parkedYield st'

/-- Acceptance verdict of a sender callback, without running it. -/
def sendCbAccepts (rb : Option Nat) : SendCb → Bool
  | .external b => b
  | .ownCase _ => rb.isNone

/-- Acceptance verdict of a receiver callback, without running it. -/
def recvCbAccepts (rb : Option Nat) : RecvCb → Bool
  | .external b => b
  | .ownCase _ => rb.isNone

/-- Declarative readiness of a case at a probe state: a receive case is ready
when the channel has a stashed peek value, a buffered value, is closed, or
has a blocked sender whose callback accepts; a send case is ready when the
channel is open and has an accepting blocked receiver or buffer room; a
future case is ready when its backing channel is closed and drained. -/
def caseReady (st : ProbeSt) : selectCase → Bool
  | .recvCase ch =>
    let c := st.chans.getD ch default
    c.recValue.isSome || !c.buffer.isEmpty || c.closed ||
      c.blockedSends.any (fun e => sendCbAccepts st.rb e.cb)
  | .sendCase ch _ =>
    let c := st.chans.getD ch default
    !c.closed && (c.blockedReceives.any (recvCbAccepts st.rb) || c.buffer.length < c.size)
  | .futureCase f =>
    let c := st.chans.getD f.ch default
    (c.recValue.isNone && c.buffer.isEmpty && c.closed) && f.ready

/-- Declarative panic condition of a probe of one case: a send on a closed
channel, or a future whose backing channel reports closed-and-drained while
its `ready` flag is still false. -/
def casePanics (st : ProbeSt) : selectCase → Bool
  | .recvCase _ => false
  | .sendCase ch _ => (st.chans.getD ch default).closed
  | .futureCase f =>
    let c := st.chans.getD f.ch default
    (c.recValue.isNone && c.buffer.isEmpty && c.closed) && !f.ready

/-- The probe state reached just before probing the `j`-th case of the
remaining case list `cs`, whose first case carries absolute number `k` (only
meaningful while every earlier case probed `through`). -/
def relProbeState (cs : List selectCase) (k : Nat) (st : ProbeSt) : Nat → ProbeSt
  | 0 => st
  | j + 1 =>
    let prev := relProbeState cs k st j
    match stepCase (k + j) prev (cs.getD j default) with
    | .through st' => st'
    | _ => prev

/-- The probe state reached just before probing case number `n` of a
`Select`. -/
def probeStateAt (cases : List selectCase) (st : ProbeSt) (n : Nat) : ProbeSt :=
  relProbeState cases 0 st n

/-- The sequence of values a drain of repeated `ReceiveAsync` calls observes
on a channel (fuelled). -/
def observeSeq : Nat → channelImpl → List Val
  | 0, _ => []
  | n + 1, c =>
    let out := receiveAsyncImpl none none c
    if out.ok then out.value :: observeSeq n out.chan else []

/-- One coroutine as the dispatcher sees it (`coroutineState`,
internal_workflow.go lines 132-140): the closed flag, the kept-blocked flag,
and whether an unhandled panic was captured (`panicError != nil`). -/
structure coroutineState where
  cid : Nat
  closed : Bool
  keptBlocked : Bool
  panicked : Bool
deriving DecidableEq, Repr, Inhabited

/-- The dispatcher state read by `ExecuteUntilAllBlocked`
(`dispatcherImpl`, lines 142-150): the spawn sequence counter and the ordered
coroutine list. -/
structure dispatcherImpl where
  sequence : Nat
  coroutines : List coroutineState
deriving DecidableEq, Repr, Inhabited

/-- The effect of one `c.call()` rendezvous: the called coroutine runs until
it yields or finishes, ending with these flag values and having spawned
`spawn` new coroutines (each spawn appends a fresh coroutine and increments
the sequence counter, `newState`, lines 727-737).  A call only mutates the
called coroutine and appends; other coroutines' flags are set only by their
own execution. -/
structure CallEffect where
  closed : Bool
  keptBlocked : Bool
  panicked : Bool
  spawn : Nat
deriving DecidableEq, Repr, Inhabited

/-- Fresh coroutines appended by `spawn` calls to `newState` during one
`c.call()`: open, not kept-blocked, no panic. -/
def freshCoroutines (seq n : Nat) : List coroutineState :=
  (List.range n).map fun k =>
    { cid := seq + 1 + k, closed := false, keptBlocked := false, panicked := false }

/-- Apply one call effect to the coroutine at position `i`. -/
def applyCall (eff : CallEffect) (i : Nat) (st : dispatcherImpl) : dispatcherImpl :=
  { sequence := st.sequence + eff.spawn,
    coroutines :=
      (st.coroutines.set i
        { (st.coroutines.getD i default) with
            closed := eff.closed, keptBlocked := eff.keptBlocked,
            panicked := eff.panicked })
        ++ freshCoroutines st.sequence eff.spawn }

/-- Result of one pass of the inner `for i := 0; i < len(d.coroutines); i++`
loop of `ExecuteUntilAllBlocked` (lines 752-777): the next behaviour-oracle
index, the dispatcher state after the pass, the accumulated `allBlocked`
flag, and whether the pass returned a coroutine's panic. -/
structure PassOut where
  ctr : Nat
  st : dispatcherImpl
  allBlocked : Bool
  panicOut : Bool
deriving DecidableEq, Repr

/-- The inner pass, fuelled (the Go loop need not terminate when coroutines
keep spawning).  `beh` is the behaviour oracle giving the effect of each
successive `c.call()`.  A coroutine that ends the call closed is removed in
place (index not advanced); if it captured a panic the pass returns it;
otherwise `allBlocked` is and-ed with its `keptBlocked` flag. -/
def runPassAux (beh : Nat → CallEffect) :
    Nat → Nat → Nat → dispatcherImpl → Bool → Option PassOut
  | 0, _, _, _, _ => none
  | fuel + 1, ctr, i, st, allB =>
    if i < st.coroutines.length then
      let c := st.coroutines.getD i default
      let ctr' := if c.closed then ctr else ctr + 1
      let st' := if c.closed then st else applyCall (beh ctr) i st
      let c' := st'.coroutines.getD i default
      if c'.closed then
        let st'' := { st' with coroutines := st'.coroutines.eraseIdx i }
        if c'.panicked then some ⟨ctr', st'', false, true⟩
        else runPassAux beh fuel ctr' i st'' false
      else
        runPassAux beh fuel ctr' (i + 1) st' (allB && c'.keptBlocked)
    else
      some ⟨ctr, st, allB, false⟩

/-- Result of `ExecuteUntilAllBlocked`: success (`nil`) or a propagated
coroutine panic, together with the final dispatcher state. -/
inductive PumpRes where
  | ok (st : dispatcherImpl)
  | panicked (st : dispatcherImpl)
deriving DecidableEq, Repr

/-- The outer `for !allBlocked` loop of `ExecuteUntilAllBlocked` (lines
750-784), fuelled: record `lastSequence`, run a pass, and-in the
sequence-unchanged check, break with success when no coroutines remain, stop
with success when `allBlocked` held, else run another pass. -/
def executeUntilAllBlocked (beh : Nat → CallEffect) (passFuel : Nat) :
    Nat → Nat → dispatcherImpl → Option PumpRes
  | 0, _, _ => none
  | fuel + 1, ctr, st =>
    let lastSequence := st.sequence
    match runPassAux beh passFuel ctr 0 st true with
    | none => none
    | some out =>
      if out.panicOut then some (.panicked out.st)
      else
        let allB := out.allBlocked && decide (lastSequence = out.st.sequence)
        if out.st.coroutines.length = 0 then some (.ok out.st)
        else if allB then some (.ok out.st)
        else executeUntilAllBlocked beh passFuel fuel out.ctr out.st

/-! ### Helper lemmas -/

theorem runSendCb_fst (rb : Option Nat) (cb : SendCb) :
    (runSendCb rb cb).1 = sendCbAccepts rb cb := by
  cases cb with
  | external b => rfl
  | ownCase i => cases rb <;> rfl

theorem runSendCb_decline (rb : Option Nat) (cb : SendCb)
    (h : (runSendCb rb cb).1 = false) : (runSendCb rb cb).2 = rb := by
  cases cb with
  | external b => rfl
  | ownCase i => cases rb with
    | none => simp [runSendCb] at h
    | some j => rfl

theorem runRecvCb_fst (rb : Option Nat) (cb : RecvCb) :
    (runRecvCb rb cb).1 = recvCbAccepts rb cb := by
  cases cb with
  | external b => rfl
  | ownCase i => cases rb <;> rfl

theorem runRecvCb_decline (rb : Option Nat) (cb : RecvCb)
    (h : (runRecvCb rb cb).1 = false) : (runRecvCb rb cb).2 = rb := by
  cases cb with
  | external b => rfl
  | ownCase i => cases rb with
    | none => simp [runRecvCb] at h
    | some j => rfl

theorem popSenders_isSome_iff (rb : Option Nat) (l : List SendEntry) :
    (popSenders rb l).1.isSome = l.any (fun e => sendCbAccepts rb e.cb) := by
  induction l with
  | nil => rfl
  | cons e rest ih =>
    simp only [popSenders, List.any_cons]
    rcases h : (runSendCb rb e.cb).1 with _ | _
    · have hrb := runSendCb_decline rb e.cb h
      have hacc : sendCbAccepts rb e.cb = false := by rw [← runSendCb_fst, h]
      simp [h, hrb, hacc, ih]
    · have hacc : sendCbAccepts rb e.cb = true := by rw [← runSendCb_fst, h]
      simp [h, hacc]

theorem popSenders_none_empties (rb : Option Nat) (l : List SendEntry)
    (h : (popSenders rb l).1 = none) : (popSenders rb l).2.1 = [] := by
  induction l generalizing rb with
  | nil => rfl
  | cons e rest ih =>
    simp only [popSenders] at h ⊢
    rcases hc : (runSendCb rb e.cb).1 with _ | _
    · simp only [hc, if_neg Bool.false_ne_true, ite_false] at h ⊢
      exact ih _ h
    · simp [hc] at h

theorem popReceivers_fst_iff (rb : Option Nat) (l : List RecvCb) :
    (popReceivers rb l).1 = l.any (recvCbAccepts rb) := by
  induction l with
  | nil => rfl
  | cons k rest ih =>
    simp only [popReceivers, List.any_cons]
    rcases h : (runRecvCb rb k).1 with _ | _
    · have hrb := runRecvCb_decline rb k h
      have hacc : recvCbAccepts rb k = false := by rw [← runRecvCb_fst, h]
      simp [h, hrb, hacc, ih]
    · have hacc : recvCbAccepts rb k = true := by rw [← runRecvCb_fst, h]
      simp [h, hacc]

/-! ### C3: receive on a closed, drained channel -/

/-- **C3.** For every channel that is closed and drained (empty buffer and no
stashed peek value), the blocking `Receive` returns immediately (no yield)
delivering no value (`nil`) with `more = false` and leaving the channel
unchanged, and `ReceiveAsyncWithMoreFlag` returns `(ok = false, more =
false)` likewise; buffered values present at close time are still delivered
(with `more = true`) before this state is reached. -/
theorem closed_drained_receive :
    (∀ c : channelImpl, c.closed = true → c.recValue = none → c.buffer = [] →
      channelReceive c = .immediate none false c ∧
      receiveAsyncWithMoreFlag c = (none, false, false, c)) ∧
    (∀ (c : channelImpl) (v : Val) (rest : List Val),
      c.closed = true → c.recValue = none → c.buffer = v :: rest →
      channelReceive c = .immediate v true { c with buffer := rest } ∧
      receiveAsyncWithMoreFlag c = (v, true, true, { c with buffer := rest })) := by
  constructor
  · intro c hclosed hrec hbuf
    obtain ⟨size, buffer, bs, br, closed, rv⟩ := c
    simp only at hclosed hrec hbuf
    subst hclosed hrec hbuf
    exact ⟨rfl, rfl⟩
  · intro c v rest hclosed hrec hbuf
    obtain ⟨size, buffer, bs, br, closed, rv⟩ := c
    simp only at hclosed hrec hbuf
    subst hclosed hrec hbuf
    exact ⟨rfl, rfl⟩

/-- Witness for C3 at a concrete closed, drained channel and at a concrete
closed channel still holding one buffered value. -/
theorem closed_drained_receive_witness :
    channelReceive ⟨0, [], [], [], true, none⟩ =
      .immediate none false ⟨0, [], [], [], true, none⟩ ∧
    channelReceive ⟨0, [some 7], [], [], true, none⟩ =
      .immediate (some 7) true ⟨0, [], [], [], true, none⟩ :=
  ⟨(closed_drained_receive.1 ⟨0, [], [], [], true, none⟩ rfl rfl rfl).1,
   (closed_drained_receive.2 ⟨0, [some 7], [], [], true, none⟩ (some 7) [] rfl rfl rfl).1⟩

/-! ### C4: sends panic exactly on closed channels -/

/-- **C4.** `Send` and `SendAsync` panic if and only if the channel is
already closed when the attempt is made (the closed check is the first thing
`sendAsyncImpl` does, and an open channel can never panic in it); `Close`
marks the channel closed and invokes the acceptance callback of every parked
sender; a parked sender resuming after `Close` hits the `c.closed` check
first and panics even though its callback marked the value consumed. -/
theorem send_panics_iff_closed :
    (∀ (v : Val) (c : channelImpl), channelSend v c = .panicked ↔ c.closed = true) ∧
    (∀ (v : Val) (pair : Option SendCb) (rb : Option Nat) (c : channelImpl),
      sendAsyncImpl v pair rb c = none ↔ c.closed = true) ∧
    (∀ (v : Val) (c : channelImpl), sendAsync v c = none ↔ c.closed = true) ∧
    (∀ c : channelImpl, (channelClose c).chan.closed = true ∧
      (channelClose c).sendersInvoked = c.blockedSends) ∧
    (∀ consumed : Bool, sendResume true consumed = .panicked) := by
  have key : ∀ (v : Val) (pair : Option SendCb) (rb : Option Nat) (c : channelImpl),
      sendAsyncImpl v pair rb c = none ↔ c.closed = true := by
    intro v pair rb c
    constructor
    · intro h
      by_contra hc
      have hc' : c.closed = false := by
        cases hcl : c.closed
        · rfl
        · exact absurd hcl hc
      simp only [sendAsyncImpl, hc', Bool.false_eq_true, if_false] at h
      rcases hp : popReceivers rb c.blockedReceives with ⟨fst, rest, rb'⟩
      cases fst
      · simp only [hp] at h
        split at h
        · simp at h
        · rcases pair with _ | p <;> simp at h
      · simp [hp] at h
    · intro h
      simp [sendAsyncImpl, h]
  refine ⟨?_, key, ?_, ?_, ?_⟩
  · intro v c
    constructor
    · intro h
      rcases hs : sendAsyncImpl v (some (.external true)) none c with _ | out
      · exact (key v (some (.external true)) none c).mp hs
      · simp only [channelSend, hs] at h
        split at h <;> simp at h
    · intro h
      simp only [channelSend]
      rw [(key v (some (.external true)) none c).mpr h]
  · intro v c
    constructor
    · intro h
      rcases hs : sendAsyncImpl v none none c with _ | out
      · exact (key v none none c).mp hs
      · simp [sendAsync, hs] at h
    · intro h
      simp only [sendAsync]
      rw [(key v none none c).mpr h]
  · intro c
    exact ⟨rfl, rfl⟩
  · intro consumed
    rfl

/-- Witness for C4: a concrete closed channel makes both send forms panic; a
concrete open channel does not panic; resuming a parked sender against a
closed channel panics even with the consumed flag set. -/
theorem send_panics_iff_closed_witness :
    channelSend (some 1) ⟨0, [], [], [], true, none⟩ = .panicked ∧
    sendAsync (some 1) ⟨0, [], [], [], true, none⟩ = none ∧
    ¬channelSend (some 1) ⟨1, [], [], [], false, none⟩ = .panicked ∧
    (channelClose ⟨0, [], [⟨some 2, .external true⟩], [], false, none⟩).sendersInvoked =
      [⟨some 2, .external true⟩] ∧
    sendResume true true = .panicked := by
  refine ⟨(send_panics_iff_closed.1 (some 1) _).mpr rfl,
    (send_panics_iff_closed.2.2.1 (some 1) _).mpr rfl, ?_,
    (send_panics_iff_closed.2.2.2.1 _).2,
    send_panics_iff_closed.2.2.2.2 true⟩
  intro h
  have := (send_panics_iff_closed.1 (some 1) ⟨1, [], [], [], false, none⟩).mp h
  simp at this

/-! ### C10: the unhandled-signal check does not consume signals -/

/-- `checkSignalChannel` leaves the observable receive behaviour of the
channel untouched: a subsequent `receiveAsyncImpl` — with any callback, so
this covers `Receive`, `ReceiveAsync` and selector probes alike — yields the
same value, flags and post-state as it would have on the unchecked channel. -/
theorem checkSignalChannel_frame (cb : Option RecvCb) (c : channelImpl) :
    (receiveAsyncImpl cb none (checkSignalChannel c).2).value =
      (receiveAsyncImpl cb none c).value ∧
    (receiveAsyncImpl cb none (checkSignalChannel c).2).ok =
      (receiveAsyncImpl cb none c).ok ∧
    (receiveAsyncImpl cb none (checkSignalChannel c).2).more =
      (receiveAsyncImpl cb none c).more ∧
    (receiveAsyncImpl cb none (checkSignalChannel c).2).chan =
      (receiveAsyncImpl cb none c).chan := by
  obtain ⟨size, buffer, bs, br, closed, rv⟩ := c
  rcases rv with _ | v
  · rcases buffer with _ | ⟨v, rest⟩
    · rcases hcl : closed with _ | _
      · rcases hp : popSenders none bs with ⟨fst, rest', rb'⟩
        rcases fst with _ | w
        · have hrest : rest' = [] := by
            have := popSenders_none_empties none bs
            rw [hp] at this
            exact this rfl
          subst hrest
          cases cb <;>
            simp [checkSignalChannel, receiveAsyncImpl, hp, hcl, popSenders]
        · cases cb <;> simp [checkSignalChannel, receiveAsyncImpl, hp, hcl]
      · cases cb <;> simp [checkSignalChannel, receiveAsyncImpl, hcl]
    · cases cb <;> simp [checkSignalChannel, receiveAsyncImpl]
  · cases cb <;> simp [checkSignalChannel, receiveAsyncImpl]

/-- **C10.** The unhandled-signal check (`getUnhandledSignals`) does not
consume any signal: on every signal channel the checked channel's observable
receive sequence (any number of subsequent receives) is exactly that of the
unchecked channel — a peeked value is stashed back into the one-slot
`recValue` cell —, the blocking `Receive` behaves identically on the checked
channel, and the map entry for every channel is exactly the per-channel
check. -/
theorem getUnhandledSignals_frame :
    (∀ (n : Nat) (c : channelImpl),
      observeSeq n (checkSignalChannel c).2 = observeSeq n c) ∧
    (∀ c : channelImpl, channelReceive (checkSignalChannel c).2 = channelReceive c) ∧
    (∀ l : List (Nat × channelImpl),
      (getUnhandledSignals l).2 = l.map fun p => (p.1, (checkSignalChannel p.2).2)) := by
  refine ⟨?_, ?_, ?_⟩
  · intro n
    induction n with
    | zero => intro c; rfl
    | succ m ih =>
      intro c
      obtain ⟨hval, hok, hmore, hchan⟩ := checkSignalChannel_frame none c
      simp only [observeSeq, hval, hok, hmore, hchan]
  · intro c
    obtain ⟨hval, hok, hmore, hchan⟩ :=
      checkSignalChannel_frame (some (.external true)) c
    simp only [channelReceive, hval, hok, hmore, hchan]
  · intro l
    induction l with
    | nil => rfl
    | cons p rest ih =>
      simp [getUnhandledSignals, ih]

/-! ### C5: futures are one-shot -/

theorem futureSet_ok_shape (v : Val) (e : Option Err) (f f' : futureImpl)
    (h : futureSet v e f = .ok f') :
    f.ready = false ∧
    ∃ chd', futureSetList v e f.chained = .ok chd' ∧
      f' = .node v e true (channelClose f.ch).chan chd' := by
  obtain ⟨v0, e0, r0, ch0, chd0⟩ := f
  rcases r0 with _ | _
  · rcases hl : futureSetList v e chd0 with u | chd'
    · simp [futureSet, hl] at h
    · simp only [futureSet, hl, Bool.false_eq_true, if_false, Except.ok.injEq] at h
      exact ⟨rfl, chd', hl, h.symm⟩
  · simp [futureSet] at h

theorem futureSetList_mem (v : Val) (e : Option Err) :
    ∀ (l l' : List futureImpl), futureSetList v e l = .ok l' →
    ∀ g' ∈ l', g'.ready = true ∧ g'.value = v ∧ g'.err = e ∧ g'.ch.closed = true := by
  intro l
  induction l with
  | nil =>
    intro l' h g' hg
    simp only [futureSetList, Except.ok.injEq] at h
    subst h
    simp at hg
  | cons f fs ih =>
    intro l' h g' hg
    rcases hf : futureSet v e f with u | f1
    · simp [futureSetList, hf] at h
    · rcases hfs : futureSetList v e fs with u | fs1
      · simp [futureSetList, hf, hfs] at h
      · simp only [futureSetList, hf, hfs, Except.ok.injEq] at h
        subst h
        rcases List.mem_cons.mp hg with hg | hg
        · subst hg
          obtain ⟨-, chd', -, hshape⟩ := futureSet_ok_shape v e f g' hf
          subst hshape
          exact ⟨rfl, rfl, rfl, rfl⟩
        · exact ih fs1 hfs g' hg

/-- **C5.** Every future is one-shot: a `Set` that succeeds requires the
future not to have been ready; afterwards `ready = true`, the backing channel
is closed, `value`/`err` hold exactly the pair passed to `Set`, every chained
future has been set with the same `(value, err)` (and its channel closed),
any further `Set`/`SetValue`/`SetError` panics, and `Get` returns the same
`(value, err)` on every call, leaving the future unchanged.  (The drained-
channel hypotheses hold for every future channel: nothing ever sends on
one.) -/
theorem future_one_shot (f f' : futureImpl) (v : Val) (e : Option Err)
    (hset : futureSet v e f = .ok f')
    (hbuf : f.ch.buffer = []) (hrec : f.ch.recValue = none) :
    f.ready = false ∧
    f'.ready = true ∧ f'.value = v ∧ f'.err = e ∧ f'.ch.closed = true ∧
    futureSetList v e f.chained = .ok f'.chained ∧
    (∀ g' ∈ f'.chained, g'.ready = true ∧ g'.value = v ∧ g'.err = e ∧
      g'.ch.closed = true) ∧
    (∀ (w : Val) (d : Option Err), futureSet w d f' = .error ()) ∧
    (∀ w : Val, futureSetValue w f' = .error ()) ∧
    (∀ d : Err, futureSetError d f' = .error ()) ∧
    futureGet f' = .returned v e f' := by
  obtain ⟨hready, chd', hlist, hshape⟩ := futureSet_ok_shape v e f f' hset
  subst hshape
  obtain ⟨v0, e0, r0, ch0, chd0⟩ := f
  obtain ⟨size, buffer, bs, br, closed, rv⟩ := ch0
  simp only [futureImpl.ch] at hbuf hrec
  subst hbuf hrec
  refine ⟨hready, rfl, rfl, rfl, rfl, ?_, ?_, ?_, ?_, ?_, ?_⟩
  · simpa [futureImpl.chained] using hlist
  · intro g' hg
    exact futureSetList_mem v e chd0 chd'
      (by simpa [futureImpl.chained] using hlist) g' hg
  · intro w d
    simp [futureSet]
  · intro w
    simp [futureSetValue, futureImpl.ready]
  · intro d
    simp [futureSetError, futureImpl.ready]
  · rfl

/-- Witness for C5 at a concrete future with one chained future. -/
theorem future_one_shot_witness :
    futureGet (.node (some 3) none true ⟨0, [], [], [], true, none⟩
        [.node (some 3) none true ⟨0, [], [], [], true, none⟩ []]) =
      .returned (some 3) none
        (.node (some 3) none true ⟨0, [], [], [], true, none⟩
          [.node (some 3) none true ⟨0, [], [], [], true, none⟩ []]) ∧
    futureSet none none (futureImpl.node (some 3) none true
        ⟨0, [], [], [], true, none⟩
        [.node (some 3) none true ⟨0, [], [], [], true, none⟩ []]) = .error () := by
  have h := future_one_shot
    (.node none none false newChannelImpl [newFutureImpl])
    (.node (some 3) none true ⟨0, [], [], [], true, none⟩
      [.node (some 3) none true ⟨0, [], [], [], true, none⟩ []])
    (some 3) none rfl rfl rfl
  exact ⟨h.2.2.2.2.2.2.2.2.2.2, h.2.2.2.2.2.2.2.1 none none⟩

/-! ### C6: Chain of an already-ready future -/

/-- Amended C6: when `Chain` is called with a future that is already ready,
the chaining future copies the value and error and becomes ready without
closing its own backing channel (so `IsReady` reports true) — but a
subsequent `Get` on the chaining future does NOT return that copied pair:
`Get` receives from the backing channel BEFORE checking `ready`, and since
the channel was never closed the receive parks the coroutine forever. -/
theorem chain_ready_copies_without_closing (f src : futureImpl)
    (hf : f.ready = false) (hsrc : src.ready = true)
    (hopen : f.ch.closed = false) (hbuf : f.ch.buffer = [])
    (hrec : f.ch.recValue = none) (hsends : f.ch.blockedSends = []) :
    ∃ f', futureChain f src = .ok (f', src) ∧
      f'.ready = true ∧ f'.value = src.value ∧ f'.err = src.err ∧
      f'.ch = f.ch ∧ f'.ch.closed = false ∧
      ∃ g, futureGet f' = .blocked g := by
  obtain ⟨v0, e0, r0, ch0, chd0⟩ := f
  obtain ⟨sv, se, sr, sch, schd⟩ := src
  obtain ⟨size, buffer, bs, br, closed, rv⟩ := ch0
  simp only [futureImpl.ready] at hf hsrc
  simp only [futureImpl.ch] at hopen hbuf hrec hsends
  subst hf hsrc hopen hbuf hrec hsends
  exact ⟨.node sv se true ⟨size, [], [], br, false, none⟩ chd0,
    rfl, rfl, rfl, rfl, rfl, rfl,
    ⟨.node sv se true ⟨size, [], [], br ++ [RecvCb.external true], false, none⟩ chd0,
      by rfl⟩⟩

/-- Witness for the amended C6 at a concrete chained-from-ready future. -/
theorem chain_ready_copies_without_closing_witness :
    ∃ f', futureChain newFutureImpl
        (.node (some 5) none true ⟨0, [], [], [], true, none⟩ []) =
        .ok (f', .node (some 5) none true ⟨0, [], [], [], true, none⟩ []) ∧
      f'.ready = true ∧ f'.value = some 5 ∧ f'.err = none ∧
      f'.ch = newFutureImpl.ch ∧ f'.ch.closed = false ∧
      ∃ g, futureGet f' = .blocked g :=
  chain_ready_copies_without_closing newFutureImpl
    (.node (some 5) none true ⟨0, [], [], [], true, none⟩ [])
    rfl rfl rfl rfl rfl rfl

/-- Counterexample to C6 as stated: chaining a fresh future to an
already-ready future (value `some 5`, nil error) yields a future on which
`Get` BLOCKS (the open backing channel parks the receiver) instead of
returning the copied `(value, err)` — the code checks the channel before
`ready`, not the other way around. -/
theorem chain_of_ready_get_blocks_counterexample :
    futureChain newFutureImpl (.node (some 5) none true ⟨0, [], [], [], true, none⟩ []) =
      .ok (.node (some 5) none true newChannelImpl [],
           .node (some 5) none true ⟨0, [], [], [], true, none⟩ []) ∧
    (futureImpl.node (some 5) none true newChannelImpl []).ready = true ∧
    (futureImpl.node (some 5) none true newChannelImpl []).ch.closed = false ∧
    futureGet (.node (some 5) none true newChannelImpl []) =
      .blocked (.node (some 5) none true ⟨0, [], [], [.external true], false, none⟩ []) ∧
    futureGet (.node (some 5) none true newChannelImpl []) ≠
      .returned (some 5) none (.node (some 5) none true newChannelImpl []) := by
  refine ⟨rfl, rfl, rfl, rfl, ?_⟩
  intro h
  rw [show futureGet (.node (some 5) none true newChannelImpl []) =
    .blocked (.node (some 5) none true ⟨0, [], [], [.external true], false, none⟩ [])
    from rfl] at h
  exact absurd h (by simp)

/-! ### C7: validation failures materialize as pre-failed futures -/

/-- **C7.** For every validation error of `ExecuteActivity` or
`ExecuteChildWorkflow` — invalid arguments (first stage) or invalid/missing
context options (second stage) — the call returns, without panicking and
without submitting anything to the environment (no `EnvCall` is emitted), a
future that is already ready holding the validation error, and `Get` on that
future surfaces exactly that error. -/
theorem validation_failure_prefailed_future :
    ∀ (e : Err) (vOpts : Except Err Unit) (decodeFn : Val → Except Err Val),
      (∃ f, ExecuteActivityModel (.error e) vOpts = .ok (f, []) ∧
        f.ready = true ∧ f.err = some e ∧ f.ch.closed = true ∧
        decodeFutureGet decodeFn f = .returned none (some e) f ∧
        futureGet f = .returned none (some e) f) ∧
      (∃ f, ExecuteActivityModel (.ok ()) (.error e) = .ok (f, []) ∧
        f.ready = true ∧ f.err = some e ∧
        decodeFutureGet decodeFn f = .returned none (some e) f) ∧
      (∃ r, ExecuteChildWorkflowModel (.error e) vOpts = .ok (r, []) ∧
        r.mainFuture.ready = true ∧ r.mainFuture.err = some e ∧
        decodeFutureGet decodeFn r.mainFuture =
          .returned none (some e) r.mainFuture ∧
        r.executionFuture = newFutureImpl) ∧
      (∃ r, ExecuteChildWorkflowModel (.ok ()) (.error e) = .ok (r, []) ∧
        r.mainFuture.ready = true ∧ r.mainFuture.err = some e ∧
        decodeFutureGet decodeFn r.mainFuture =
          .returned none (some e) r.mainFuture) := by
  intro e vOpts decodeFn
  refine ⟨⟨.node none (some e) true ⟨0, [], [], [], true, none⟩ [],
      rfl, rfl, rfl, rfl, rfl, rfl⟩,
    ⟨.node none (some e) true ⟨0, [], [], [], true, none⟩ [],
      rfl, rfl, rfl, rfl⟩,
    ⟨⟨.node none (some e) true ⟨0, [], [], [], true, none⟩ [], newFutureImpl⟩,
      rfl, rfl, rfl, rfl, rfl⟩,
    ⟨⟨.node none (some e) true ⟨0, [], [], [], true, none⟩ [], newFutureImpl⟩,
      rfl, rfl, rfl, rfl⟩⟩

/-! ### C8: child-workflow cancel only after the started-callback -/

theorem childCancelRun_append (l1 l2 : List ChildEvent) (exec : Option WorkflowExecution) :
    childCancelRun exec (l1 ++ l2) =
      ((childCancelRun (childCancelRun exec l1).1 l2).1,
       (childCancelRun exec l1).2 ++ (childCancelRun (childCancelRun exec l1).1 l2).2) := by
  induction l1 generalizing exec with
  | nil => simp [childCancelRun]
  | cons ev rest ih =>
    simp only [List.cons_append, childCancelRun, List.append_eq]
    rw [ih]
    simp [List.append_assoc]

theorem childCancelRun_no_start (evs : List ChildEvent)
    (h : ∀ r, ChildEvent.started r none ∉ evs) :
    (childCancelRun none evs).1 = none ∧ (childCancelRun none evs).2 = [] := by
  induction evs with
  | nil => exact ⟨rfl, rfl⟩
  | cons ev rest ih =>
    have hrest : ∀ r, ChildEvent.started r none ∉ rest := by
      intro r hr
      exact h r (List.mem_cons_of_mem _ hr)
    cases ev with
    | started r e =>
      have hne : e ≠ none := by
        intro he
        subst he
        exact h r (List.mem_cons_self _ _)
      obtain ⟨h1, h2⟩ := ih hrest
      simp [childCancelRun, childCancelStep, hne, h1, h2]
    | cancelRequested =>
      obtain ⟨h1, h2⟩ := ih hrest
      simp [childCancelRun, childCancelStep, h1, h2]

theorem childCancelRun_calls (evs : List ChildEvent) :
    ∀ (exec : Option WorkflowExecution) (wid rid : Nat),
      EnvCall.requestCancelWorkflow wid rid ∈ (childCancelRun exec evs).2 →
      exec = some ⟨wid, rid⟩ ∨ ChildEvent.started ⟨wid, rid⟩ none ∈ evs := by
  induction evs with
  | nil =>
    intro exec wid rid h
    simp [childCancelRun] at h
  | cons ev rest ih =>
    intro exec wid rid h
    simp only [childCancelRun, List.mem_append] at h
    rcases h with h | h
    · cases ev with
      | started r e => simp [childCancelStep] at h
      | cancelRequested =>
        rcases exec with _ | x
        · simp [childCancelStep] at h
        · simp only [childCancelStep, List.mem_singleton,
            EnvCall.requestCancelWorkflow.injEq] at h
          left
          obtain ⟨h1, h2⟩ := h
          cases x
          simp only at h1 h2
          subst h1 h2
          rfl
    · have := ih _ wid rid h
      rcases this with hx | hx
      · cases ev with
        | started r e =>
          simp only [childCancelStep] at hx
          split at hx
          · rename_i he
            right
            have hr : some r = some (⟨wid, rid⟩ : WorkflowExecution) := hx
            have hr2 : r = ⟨wid, rid⟩ := by injection hr
            subst he
            rw [← hr2]
            exact List.mem_cons_self _ _
          · exact Or.inl hx
        | cancelRequested =>
          rcases exec with _ | x <;> simp only [childCancelStep] at hx
          · exact Or.inl hx
          · exact Or.inl hx
      · exact Or.inr (List.mem_cons_of_mem _ hx)

/-- **C8.** For a child started via `ExecuteChildWorkflow`, the cancellation
coroutine never issues `RequestCancelWorkflow` before the started-callback
has delivered the child's `WorkflowExecution`: a cancel firing while no
successful started-callback has been observed is silently dropped (the run of
the event sequence emits nothing for it), and every emitted
`RequestCancelWorkflow` targets an execution previously delivered by a
started-callback with nil error. -/
theorem child_cancel_only_after_started :
    (∀ pre suf : List ChildEvent, (∀ r, ChildEvent.started r none ∉ pre) →
      (childCancelRun none (pre ++ ChildEvent.cancelRequested :: suf)).2 =
        (childCancelRun none suf).2) ∧
    (∀ (evs : List ChildEvent) (wid rid : Nat),
      EnvCall.requestCancelWorkflow wid rid ∈ (childCancelRun none evs).2 →
      ChildEvent.started ⟨wid, rid⟩ none ∈ evs) := by
  constructor
  · intro pre suf hpre
    obtain ⟨h1, h2⟩ := childCancelRun_no_start pre hpre
    rw [childCancelRun_append, h1, h2]
    simp [childCancelRun, childCancelStep]
  · intro evs wid rid h
    rcases childCancelRun_calls evs none wid rid h with hx | hx
    · exact absurd hx (by simp)
    · exact hx

/-- Witness for C8: a cancel that races ahead of the start emits no
environment call at all. -/
theorem child_cancel_only_after_started_witness :
    (childCancelRun none
      [ChildEvent.cancelRequested, ChildEvent.started ⟨4, 7⟩ none]).2 =
      (childCancelRun none [ChildEvent.started ⟨4, 7⟩ none]).2 :=
  child_cancel_only_after_started.1 [] [ChildEvent.started ⟨4, 7⟩ none]
    (fun r hr => by simp at hr)

/-! ### C9: earliest-(mockFireTime, timerID) timer selection -/

theorem timerBefore_irrefl (a : testTimerHandle) : timerBefore a a = false := by
  simp only [timerBefore, decide_eq_false_iff_not]
  push_neg
  omega

theorem timerBefore_trans (a b c : testTimerHandle)
    (h1 : timerBefore a b = true) (h2 : timerBefore b c = true) :
    timerBefore a c = true := by
  simp only [timerBefore, decide_eq_true_eq] at h1 h2 ⊢
  omega

theorem timerBefore_total (u a r : testTimerHandle)
    (h1 : timerBefore u a = false) (h2 : timerBefore u r = true) :
    timerBefore a r = true := by
  simp only [timerBefore, decide_eq_false_iff_not, decide_eq_true_eq] at h1 h2 ⊢
  push_neg at h1
  omega

theorem foldl_nextTimer_min (ts : List testTimerHandle) :
    ∀ a : testTimerHandle,
      let r := ts.foldl (fun next u => if timerBefore u next then u else next) a
      (r = a ∨ r ∈ ts) ∧ timerBefore a r = false ∧
        ∀ u ∈ ts, timerBefore u r = false := by
  induction ts with
  | nil =>
    intro a
    exact ⟨Or.inl rfl, timerBefore_irrefl a, by intro u hu; simp at hu⟩
  | cons u ts ih =>
    intro a
    simp only [List.foldl_cons]
    by_cases hb : timerBefore u a = true
    · -- step switches to u
      rw [if_pos hb]
      obtain ⟨hmem, hbu, hall⟩ := ih u
      refine ⟨?_, ?_, ?_⟩
      · rcases hmem with h | h
        · refine Or.inr ?_
          rw [h]
          exact List.mem_cons_self _ _
        · exact Or.inr (List.mem_cons_of_mem _ h)
      · cases har : timerBefore a
            (List.foldl (fun next u => if timerBefore u next then u else next) u ts)
        · rfl
        · have h2 := timerBefore_trans u a _ hb har
          simp [h2] at hbu
      · intro w hw
        rcases List.mem_cons.mp hw with hw | hw
        · subst hw
          exact hbu
        · exact hall w hw
    · -- step keeps a
      have hb' : timerBefore u a = false := by
        cases h : timerBefore u a
        · rfl
        · exact absurd h hb
      rw [if_neg hb]
      obtain ⟨hmem, hba, hall⟩ := ih a
      refine ⟨?_, hba, ?_⟩
      · rcases hmem with h | h
        · exact Or.inl h
        · exact Or.inr (List.mem_cons_of_mem _ h)
      · intro w hw
        rcases List.mem_cons.mp hw with hw | hw
        · subst hw
          cases hur : timerBefore w
              (List.foldl (fun next u => if timerBefore u next then u else next) a ts)
          · rfl
          · have h2 := timerBefore_total w a _ hb' hur
            simp [h2] at hba
        · exact hall w hw

/-- **C9.** In the test environment main loop, when the callback queue is
empty and timers exist, the chosen timer is one with the earliest
`mockTimeToFire`, ties broken by the smaller `timerID` (it is a
lexicographic minimum over all timers regardless of map iteration order);
when no activity is running (`runningCount = 0`) it is fired by advancing
the mock clock exactly to its fire time, and otherwise no clock advance
happens — a real wall-clock timer is arranged (or an earlier-firing one
already armed is kept). -/
theorem autoFireNextTimer_selection (env : testEnvState) (hne : env.timers ≠ []) :
    startMainLoopStep [] env = .auto (autoFireNextTimer env) ∧
    ∃ nt, findNextTimer env.timers = some nt ∧
      nt ∈ env.timers ∧
      (∀ u ∈ env.timers, nt.mockTimeToFire ≤ u.mockTimeToFire ∧
        (nt.mockTimeToFire = u.mockTimeToFire → nt.timerID ≤ u.timerID)) ∧
      (env.runningCount = 0 →
        autoFireNextTimer env = .fired nt.timerID nt.mockTimeToFire) ∧
      (env.runningCount ≠ 0 →
        autoFireNextTimer env = .keepExistingWall nt.timerID ∨
        autoFireNextTimer env = .arrangeWall nt.timerID
          (env.wallNow + (nt.mockTimeToFire - env.mockNow))) := by
  refine ⟨rfl, ?_⟩
  obtain ⟨timers, running, mockNow, wallNow⟩ := env
  simp only at hne ⊢
  rcases timers with _ | ⟨t, ts⟩
  · exact absurd rfl hne
  · obtain ⟨hmem, hbt, hall⟩ := foldl_nextTimer_min ts t
    refine ⟨ts.foldl (fun next u => if timerBefore u next then u else next) t,
      rfl, ?_, ?_, ?_, ?_⟩
    · rcases hmem with h | h
      · rw [h]
        exact List.mem_cons_self _ _
      · exact List.mem_cons_of_mem _ h
    · intro u hu
      have hnb : timerBefore u
          (ts.foldl (fun next u => if timerBefore u next then u else next) t) = false := by
        rcases List.mem_cons.mp hu with hu | hu
        · rw [hu]
          exact hbt
        · exact hall u hu
      generalize hm : ts.foldl (fun next u => if timerBefore u next then u else next) t = m
        at hnb ⊢
      simp only [timerBefore, decide_eq_false_iff_not] at hnb
      push_neg at hnb
      exact ⟨by omega, fun he => by omega⟩
    · intro hrun
      subst hrun
      have harith : mockNow +
          ((ts.foldl (fun next u => if timerBefore u next then u else next) t).mockTimeToFire
            - mockNow) =
          (ts.foldl (fun next u => if timerBefore u next then u else next) t).mockTimeToFire := by
        omega
      have hdef : autoFireNextTimer ⟨t :: ts, 0, mockNow, wallNow⟩ =
          .fired (ts.foldl (fun next u => if timerBefore u next then u else next) t).timerID
            (mockNow +
              ((ts.foldl (fun next u =>
                if timerBefore u next then u else next) t).mockTimeToFire - mockNow)) := rfl
      rw [hdef, harith]
    · intro hrun
      simp only [autoFireNextTimer, findNextTimer]
      rw [if_neg hrun]
      split
      · exact Or.inl rfl
      · exact Or.inr rfl

/-- Witness for C9: two timers, one firing at mock time 3 with id 1, one at
mock time 5 with id 2; with the queue empty and no running activity, the
mock clock is advanced to time 3 and timer 1 fires. -/
theorem autoFireNextTimer_selection_witness :
    autoFireNextTimer ⟨[⟨2, 5, false, 0⟩, ⟨1, 3, false, 0⟩], 0, 0, 0⟩ = .fired 1 3 := by
  obtain ⟨-, nt, hfind, -, -, hfire, -⟩ :=
    autoFireNextTimer_selection ⟨[⟨2, 5, false, 0⟩, ⟨1, 3, false, 0⟩], 0, 0, 0⟩
      (by simp)
  have hnt : nt = ⟨1, 3, false, 0⟩ := by
    have h2 : findNextTimer [⟨2, 5, false, 0⟩, ⟨1, 3, false, 0⟩] =
        some ⟨1, 3, false, 0⟩ := by decide
    rw [h2] at hfind
    exact (Option.some.injEq _ _ ▸ hfind).symm
  rw [hfire rfl, hnt]

/-! ### C2: selector probe order -/

theorem stepCase_fire_iff (idx : Nat) (st : ProbeSt) (c : selectCase) :
    (∃ st', stepCase idx st c = .fire st') ↔ caseReady st c = true := by
  cases c with
  | recvCase ch =>
    simp only [stepCase, caseReady]
    rcases hc : st.chans.getD ch default with ⟨size, buffer, bs, br, closed, rv⟩
    rcases rv with _ | v
    · rcases buffer with _ | ⟨v, rest⟩
      · rcases hcl : closed with _ | _
        · rcases hp : popSenders st.rb bs with ⟨fst, rest', rb'⟩
          have hany := popSenders_isSome_iff st.rb bs
          rw [hp] at hany
          rcases fst with _ | w
          · have hany' : (bs.any fun e => sendCbAccepts st.rb e.cb) = false := by
              simpa using hany.symm
            simp [receiveAsyncImpl, hp, hany']
          · have hany' : (bs.any fun e => sendCbAccepts st.rb e.cb) = true := by
              simpa using hany.symm
            simp [receiveAsyncImpl, hp, hany']
        · simp [receiveAsyncImpl]
      · simp [receiveAsyncImpl]
    · simp [receiveAsyncImpl]
  | sendCase ch v =>
    simp only [stepCase, caseReady]
    rcases hc : st.chans.getD ch default with ⟨size, buffer, bs, br, closed, rv⟩
    rcases hcl : closed with _ | _
    · rcases hp : popReceivers st.rb br with ⟨fst, rest', rb'⟩
      have hany := popReceivers_fst_iff st.rb br
      rw [hp] at hany
      rcases fst with _ | _
      · have hany' : br.any (recvCbAccepts st.rb) = false := by
          simpa using hany.symm
        by_cases hroom : buffer.length < size
        · simp [sendAsyncImpl, hp, hany', hroom]
        · simp [sendAsyncImpl, hp, hany', hroom]
      · have hany' : br.any (recvCbAccepts st.rb) = true := by
          simpa using hany.symm
        simp [sendAsyncImpl, hp, hany']
    · simp [sendAsyncImpl]
  | futureCase f =>
    simp only [stepCase, caseReady]
    rcases hc : st.chans.getD f.ch default with ⟨size, buffer, bs, br, closed, rv⟩
    rcases rv with _ | v
    · rcases buffer with _ | ⟨v, rest⟩
      · rcases hcl : closed with _ | _
        · rcases hp : popSenders st.rb bs with ⟨fst, rest', rb'⟩
          rcases fst with _ | w
          · simp [receiveAsyncImpl, hp]
          · simp [receiveAsyncImpl, hp]
        · rcases hrdy : f.ready with _ | _ <;> simp [receiveAsyncImpl, hrdy]
      · simp [receiveAsyncImpl]
    · simp [receiveAsyncImpl]

theorem stepCase_panic_iff (idx : Nat) (st : ProbeSt) (c : selectCase) :
    stepCase idx st c = .panicked ↔ casePanics st c = true := by
  cases c with
  | recvCase ch =>
    simp only [stepCase, casePanics]
    rcases hc : st.chans.getD ch default with ⟨size, buffer, bs, br, closed, rv⟩
    constructor
    · intro h
      split at h <;> simp at h
    · intro h
      simp at h
  | sendCase ch v =>
    simp only [stepCase, casePanics]
    rcases hc : st.chans.getD ch default with ⟨size, buffer, bs, br, closed, rv⟩
    rcases hcl : closed with _ | _
    · rcases hp : popReceivers st.rb br with ⟨fst, rest', rb'⟩
      rcases fst with _ | _
      · by_cases hroom : buffer.length < size
        · simp [sendAsyncImpl, hp, hroom]
        · simp [sendAsyncImpl, hp, hroom]
      · simp [sendAsyncImpl, hp]
    · simp [sendAsyncImpl]
  | futureCase f =>
    simp only [stepCase, casePanics]
    rcases hc : st.chans.getD f.ch default with ⟨size, buffer, bs, br, closed, rv⟩
    rcases rv with _ | v
    · rcases buffer with _ | ⟨v, rest⟩
      · rcases hcl : closed with _ | _
        · rcases hp : popSenders st.rb bs with ⟨fst, rest', rb'⟩
          rcases fst with _ | w
          · simp [receiveAsyncImpl, hp]
          · simp [receiveAsyncImpl, hp]
        · rcases hrdy : f.ready with _ | _ <;> simp [receiveAsyncImpl, hrdy]
      · simp [receiveAsyncImpl]
    · simp [receiveAsyncImpl]

theorem relProbeState_cons (c : selectCase) (cs : List selectCase) (k : Nat)
    (st st₁ : ProbeSt) (h : stepCase k st c = .through st₁) (j : Nat) :
    relProbeState (c :: cs) k st (j + 1) = relProbeState cs (k + 1) st₁ j := by
  induction j with
  | zero =>
    simp [relProbeState, h]
  | succ j ih =>
    have harith : k + (j + 1) = (k + 1) + j := by omega
    show (match stepCase (k + (j + 1)) (relProbeState (c :: cs) k st (j + 1))
          ((c :: cs).getD (j + 1) default) with
        | StepRes.through st' => st'
        | _ => relProbeState (c :: cs) k st (j + 1)) =
      (match stepCase ((k + 1) + j) (relProbeState cs (k + 1) st₁ j)
          (cs.getD j default) with
        | StepRes.through st' => st'
        | _ => relProbeState cs (k + 1) st₁ j)
    rw [ih, harith, List.getD_cons_succ]

theorem probeCases_fired (cs : List selectCase) :
    ∀ (k : Nat) (st : ProbeSt) (i : Nat) (st' : ProbeSt),
      probeCases cs k st = .fired i st' →
      ∃ j, i = k + j ∧ j < cs.length ∧
        caseReady (relProbeState cs k st j) (cs.getD j default) = true ∧
        ∀ j' < j, caseReady (relProbeState cs k st j') (cs.getD j' default) = false := by
  induction cs with
  | nil =>
    intro k st i st' h
    simp [probeCases] at h
  | cons c rest ih =>
    intro k st i st' h
    simp only [probeCases] at h
    cases hs : stepCase k st c with
    | fire st₁ =>
      rw [hs] at h
      simp only at h
      obtain ⟨hi, -⟩ : i = k ∧ st' = st₁ := by
        cases h
        exact ⟨rfl, rfl⟩
      refine ⟨0, by omega, by simp, ?_,
        fun j' hj' => absurd hj' (Nat.not_lt_zero _)⟩
      rw [show relProbeState (c :: rest) k st 0 = st from rfl]
      simp only [List.getD_cons_zero]
      exact (stepCase_fire_iff k st c).mp ⟨st₁, hs⟩
    | through st₁ =>
      rw [hs] at h
      simp only at h
      obtain ⟨j, hij, hjlen, hready, hbefore⟩ := ih (k + 1) st₁ i st' h
      refine ⟨j + 1, by omega, by simpa using Nat.succ_lt_succ hjlen, ?_, ?_⟩
      · rw [relProbeState_cons c rest k st st₁ hs j, List.getD_cons_succ]
        exact hready
      · intro j' hj'
        cases j' with
        | zero =>
          rw [show relProbeState (c :: rest) k st 0 = st from rfl, List.getD_cons_zero]
          cases hready0 : caseReady st c
          · rfl
          · obtain ⟨st₂, hst₂⟩ := (stepCase_fire_iff k st c).mpr hready0
            rw [hs] at hst₂
            cases hst₂
        | succ j'' =>
          rw [relProbeState_cons c rest k st st₁ hs j'', List.getD_cons_succ]
          exact hbefore j'' (by omega)
    | panicked =>
      rw [hs] at h
      simp at h

theorem probeCases_through (cs : List selectCase) :
    ∀ (k : Nat) (st : ProbeSt) (st' : ProbeSt),
      probeCases cs k st = .through st' →
      ∀ j < cs.length,
        caseReady (relProbeState cs k st j) (cs.getD j default) = false := by
  induction cs with
  | nil =>
    intro k st st' _ j hj
    simp at hj
  | cons c rest ih =>
    intro k st st' h j hj
    simp only [probeCases] at h
    cases hs : stepCase k st c with
    | fire st₁ =>
      rw [hs] at h
      simp at h
    | through st₁ =>
      rw [hs] at h
      simp only at h
      cases j with
      | zero =>
        rw [show relProbeState (c :: rest) k st 0 = st from rfl, List.getD_cons_zero]
        cases hready0 : caseReady st c
        · rfl
        · obtain ⟨st₂, hst₂⟩ := (stepCase_fire_iff k st c).mpr hready0
          rw [hs] at hst₂
          cases hst₂
      | succ j'' =>
        rw [relProbeState_cons c rest k st st₁ hs j'', List.getD_cons_succ]
        exact ih (k + 1) st₁ st' h j'' (by simpa using Nat.lt_of_succ_lt_succ hj)
    | panicked =>
      rw [hs] at h
      simp at h

theorem probeCases_ready_fires (cs : List selectCase) :
    ∀ (k : Nat) (st : ProbeSt) (j : Nat), j < cs.length →
      caseReady (relProbeState cs k st j) (cs.getD j default) = true →
      (∀ j' < j, caseReady (relProbeState cs k st j') (cs.getD j' default) = false ∧
        casePanics (relProbeState cs k st j') (cs.getD j' default) = false) →
      ∃ st', probeCases cs k st = .fired (k + j) st' := by
  induction cs with
  | nil =>
    intro k st j hj
    simp at hj
  | cons c rest ih =>
    intro k st j hj hready hbefore
    cases j with
    | zero =>
      rw [show relProbeState (c :: rest) k st 0 = st from rfl, List.getD_cons_zero] at hready
      obtain ⟨st₁, hs⟩ := (stepCase_fire_iff k st c).mpr hready
      exact ⟨st₁, by simp [probeCases, hs]⟩
    | succ j'' =>
      obtain ⟨hnr, hnp⟩ := hbefore 0 (by omega)
      rw [show relProbeState (c :: rest) k st 0 = st from rfl, List.getD_cons_zero]
        at hnr hnp
      cases hs : stepCase k st c with
      | fire st₁ =>
        have := (stepCase_fire_iff k st c).mp ⟨st₁, hs⟩
        rw [this] at hnr
        cases hnr
      | panicked =>
        have := (stepCase_panic_iff k st c).mp hs
        rw [this] at hnp
        cases hnp
      | through st₁ =>
        rw [relProbeState_cons c rest k st st₁ hs j'', List.getD_cons_succ] at hready
        have hbefore' : ∀ j' < j'',
            caseReady (relProbeState rest (k + 1) st₁ j') (rest.getD j' default) = false ∧
            casePanics (relProbeState rest (k + 1) st₁ j') (rest.getD j' default) = false := by
          intro j' hj'
          have := hbefore (j' + 1) (by omega)
          rwa [relProbeState_cons c rest k st st₁ hs j', List.getD_cons_succ] at this
        obtain ⟨st', hfin⟩ := ih (k + 1) st₁ j''
          (by simpa using Nat.lt_of_succ_lt_succ hj) hready hbefore'
        refine ⟨st', ?_⟩
        simp only [probeCases, hs]
        rw [hfin]
        congr 1
        omega

theorem probeCases_none_ready_through (cs : List selectCase) :
    ∀ (k : Nat) (st : ProbeSt),
      (∀ j < cs.length,
        caseReady (relProbeState cs k st j) (cs.getD j default) = false ∧
        casePanics (relProbeState cs k st j) (cs.getD j default) = false) →
      ∃ st', probeCases cs k st = .through st' := by
  induction cs with
  | nil =>
    intro k st _
    exact ⟨st, rfl⟩
  | cons c rest ih =>
    intro k st hnone
    obtain ⟨hnr, hnp⟩ := hnone 0 (by simp)
    rw [show relProbeState (c :: rest) k st 0 = st from rfl, List.getD_cons_zero]
      at hnr hnp
    cases hs : stepCase k st c with
    | fire st₁ =>
      have := (stepCase_fire_iff k st c).mp ⟨st₁, hs⟩
      rw [this] at hnr
      cases hnr
    | panicked =>
      have := (stepCase_panic_iff k st c).mp hs
      rw [this] at hnp
      cases hnp
    | through st₁ =>
      have hnone' : ∀ j < rest.length,
          caseReady (relProbeState rest (k + 1) st₁ j) (rest.getD j default) = false ∧
          casePanics (relProbeState rest (k + 1) st₁ j) (rest.getD j default) = false := by
        intro j hj
        have := hnone (j + 1) (by simp only [List.length_cons]; omega)
        rwa [relProbeState_cons c rest k st st₁ hs j, List.getD_cons_succ] at this
      obtain ⟨st', hfin⟩ := ih (k + 1) st₁ hnone'
      exact ⟨st', by simp [probeCases, hs, hfin]⟩

/-- **C2.** `Select` probes its cases in insertion order.  When a case fires
(outcome `firedCase`, which returns without yielding — yielding is the
disjoint `parkedYield` outcome) it is ready at its probe state, and every
earlier-added case was NOT ready at its own probe time, so when several
cases are ready at probe time the earliest-added one wins; conversely, the
first ready case (with no earlier panicking probe) does fire.  The default
case fires if and only if a default is present and no non-default case was
ready at its probe time. -/
theorem selector_insertion_order (cases : List selectCase) (hasDefault : Bool)
    (st : ProbeSt) :
    (∀ i st', selectorSelect cases hasDefault st = .firedCase i st' →
      i < cases.length ∧
      caseReady (probeStateAt cases st i) (cases.getD i default) = true ∧
      ∀ j < i, caseReady (probeStateAt cases st j) (cases.getD j default) = false) ∧
    (∀ st', selectorSelect cases hasDefault st = .defaulted st' →
      hasDefault = true ∧
      ∀ j < cases.length,
        caseReady (probeStateAt cases st j) (cases.getD j default) = false) ∧
    ((∀ j < cases.length,
        caseReady (probeStateAt cases st j) (cases.getD j default) = false ∧
        casePanics (probeStateAt cases st j) (cases.getD j default) = false) →
      hasDefault = true →
      ∃ st', selectorSelect cases hasDefault st = .defaulted st') ∧
    (∀ i, i < cases.length →
      caseReady (probeStateAt cases st i) (cases.getD i default) = true →
      (∀ j < i, caseReady (probeStateAt cases st j) (cases.getD j default) = false ∧
        casePanics (probeStateAt cases st j) (cases.getD j default) = false) →
      ∃ st', selectorSelect cases hasDefault st = .firedCase i st') := by
  refine ⟨?_, ?_, ?_, ?_⟩
  · intro i st' h
    simp only [selectorSelect] at h
    cases hp : probeCases cases 0 st with
    | fired i₀ st₀ =>
      rw [hp] at h
      simp only at h
      obtain ⟨hi, -⟩ : i₀ = i ∧ st₀ = st' := by
        cases h
        exact ⟨rfl, rfl⟩
      subst hi
      obtain ⟨j, hij, hjlen, hready, hbefore⟩ := probeCases_fired cases 0 st i₀ st₀ hp
      have hj0 : i₀ = j := by omega
      subst hj0
      exact ⟨hjlen, hready, hbefore⟩
    | through st₀ =>
      rw [hp] at h
      rcases hasDefault with _ | _ <;> simp at h
    | panicked =>
      rw [hp] at h
      simp at h
  · intro st' h
    simp only [selectorSelect] at h
    cases hp : probeCases cases 0 st with
    | fired i₀ st₀ =>
      rw [hp] at h
      simp at h
    | through st₀ =>
      rw [hp] at h
      rcases hasDefault with _ | _
      · simp at h
      · exact ⟨rfl, probeCases_through cases 0 st st₀ hp⟩
    | panicked =>
      rw [hp] at h
      simp at h
  · intro hnone hd
    obtain ⟨st', hfin⟩ := probeCases_none_ready_through cases 0 st hnone
    exact ⟨st', by simp [selectorSelect, hfin, hd]⟩
  · intro i hi hready hbefore
    obtain ⟨st', hfin⟩ := probeCases_ready_fires cases 0 st i hi hready hbefore
    refine ⟨st', ?_⟩
    simp only [selectorSelect, hfin, Nat.zero_add]

/-- Witness for C2: two receive cases over two channels that BOTH hold a
buffered value; the earliest-added case (case 0) fires. -/
theorem selector_insertion_order_witness :
    ∃ st', selectorSelect [.recvCase 0, .recvCase 1] false
      ⟨[⟨1, [some 10], [], [], false, none⟩, ⟨1, [some 20], [], [], false, none⟩],
        none⟩ = .firedCase 0 st' :=
  (selector_insertion_order [.recvCase 0, .recvCase 1] false
      ⟨[⟨1, [some 10], [], [], false, none⟩, ⟨1, [some 20], [], [], false, none⟩],
        none⟩).2.2.2 0 (by decide) (by decide) (by omega)

/-! ### C1: pump termination condition -/

theorem getD_append_of_lt {α : Type} (l l' : List α) (j : Nat) (d : α)
    (h : j < l.length) : (l ++ l').getD j d = l.getD j d := by
  induction l generalizing j with
  | nil => simp at h
  | cons a as ih =>
    cases j with
    | zero => rfl
    | succ j =>
      simp only [List.cons_append, List.getD_cons_succ]
      exact ih j (by simpa using Nat.lt_of_succ_lt_succ h)

theorem getD_set_ne {α : Type} (l : List α) (i j : Nat) (x d : α) (h : j ≠ i) :
    (l.set i x).getD j d = l.getD j d := by
  induction l generalizing i j with
  | nil => simp [List.set]
  | cons a as ih =>
    cases i with
    | zero =>
      cases j with
      | zero => exact absurd rfl h
      | succ j => simp [List.set, List.getD_cons_succ]
    | succ i =>
      cases j with
      | zero => simp [List.set]
      | succ j =>
        simp only [List.set, List.getD_cons_succ]
        exact ih i j (fun e => h (by omega))

theorem getD_set_self {α : Type} (l : List α) (i : Nat) (x d : α)
    (h : i < l.length) : (l.set i x).getD i d = x := by
  induction l generalizing i with
  | nil => simp at h
  | cons a as ih =>
    cases i with
    | zero => rfl
    | succ i =>
      simp only [List.set, List.getD_cons_succ]
      exact ih i (by simpa using Nat.lt_of_succ_lt_succ h)

theorem getD_of_lt {α : Type} (l : List α) (i : Nat) (d : α) (h : i < l.length) :
    ∃ hh : i < l.length, l.getD i d = l.get ⟨i, hh⟩ := by
  refine ⟨h, ?_⟩
  induction l generalizing i with
  | nil => simp at h
  | cons a as ih =>
    cases i with
    | zero => rfl
    | succ i =>
      simp only [List.getD_cons_succ, List.get_cons_succ]
      exact ih i (by simpa using Nat.lt_of_succ_lt_succ h)

theorem applyCall_sequence (eff : CallEffect) (i : Nat) (st : dispatcherImpl) :
    (applyCall eff i st).sequence = st.sequence + eff.spawn := rfl

theorem applyCall_length (eff : CallEffect) (i : Nat) (st : dispatcherImpl) :
    (applyCall eff i st).coroutines.length = st.coroutines.length + eff.spawn := by
  simp [applyCall, freshCoroutines]

theorem applyCall_getD_ne (eff : CallEffect) (i : Nat) (st : dispatcherImpl)
    (j : Nat) (hj : j < st.coroutines.length) (hne : j ≠ i) :
    (applyCall eff i st).coroutines.getD j default = st.coroutines.getD j default := by
  simp only [applyCall]
  rw [getD_append_of_lt _ _ j _ (by simp only [List.length_set]; omega),
    getD_set_ne _ _ _ _ _ hne]

theorem applyCall_getD_self (eff : CallEffect) (i : Nat) (st : dispatcherImpl)
    (hi : i < st.coroutines.length) :
    (applyCall eff i st).coroutines.getD i default =
      { st.coroutines.getD i default with
          closed := eff.closed, keptBlocked := eff.keptBlocked,
          panicked := eff.panicked } := by
  simp only [applyCall]
  rw [getD_append_of_lt _ _ i _ (by simp only [List.length_set]; omega),
    getD_set_self _ _ _ _ hi]

theorem runPassAux_stop (beh : Nat → CallEffect) (fuel ctr i : Nat)
    (st : dispatcherImpl) (allB : Bool) (h : ¬ i < st.coroutines.length) :
    runPassAux beh (fuel + 1) ctr i st allB = some ⟨ctr, st, allB, false⟩ := by
  simp [runPassAux, h]

theorem runPassAux_step (beh : Nat → CallEffect) (fuel ctr i : Nat)
    (st : dispatcherImpl) (allB : Bool) (h : i < st.coroutines.length) :
    runPassAux beh (fuel + 1) ctr i st allB =
      (let c := st.coroutines.getD i default
       let ctr' := if c.closed then ctr else ctr + 1
       let st' := if c.closed then st else applyCall (beh ctr) i st
       let c' := st'.coroutines.getD i default
       if c'.closed then
         let st'' := { st' with coroutines := st'.coroutines.eraseIdx i }
         if c'.panicked then some ⟨ctr', st'', false, true⟩
         else runPassAux beh fuel ctr' i st'' false
       else runPassAux beh fuel ctr' (i + 1) st' (allB && c'.keptBlocked)) := by
  simp [runPassAux, h]

/-- A pass that ends with `allBlocked = true` never removed a coroutine,
never returned a panic, only grew the list and the sequence counter, left
the already-visited prefix untouched, and left every coroutine from the
visiting point on with `keptBlocked = true`. -/
theorem runPassAux_allBlocked (beh : Nat → CallEffect) :
    ∀ (fuel ctr i : Nat) (st : dispatcherImpl) (allB : Bool) (out : PassOut),
      runPassAux beh fuel ctr i st allB = some out →
      out.allBlocked = true →
      allB = true ∧ out.panicOut = false ∧
      st.sequence ≤ out.st.sequence ∧
      st.coroutines.length ≤ out.st.coroutines.length ∧
      (∀ j, j < i → j < st.coroutines.length →
        out.st.coroutines.getD j default = st.coroutines.getD j default) ∧
      (∀ j, i ≤ j → j < out.st.coroutines.length →
        (out.st.coroutines.getD j default).keptBlocked = true) := by
  intro fuel
  induction fuel with
  | zero =>
    intro ctr i st allB out h
    cases h
  | succ fuel ih =>
    intro ctr i st allB out h hall
    by_cases hlen : i < st.coroutines.length
    · rw [runPassAux_step beh fuel ctr i st allB hlen] at h
      simp only at h
      by_cases hc : (st.coroutines.getD i default).closed = true
      · -- entry-closed coroutine: removal branch, allBlocked cannot end true
        simp only [hc, eq_self_iff_true, if_true] at h
        by_cases hpan : (st.coroutines.getD i default).panicked = true
        · simp only [hpan, eq_self_iff_true, if_true] at h
          injection h with h2
          rw [← h2] at hall
          cases hall
        · have hpan' : (st.coroutines.getD i default).panicked = false := by
            cases hh : (st.coroutines.getD i default).panicked
            · rfl
            · exact absurd hh hpan
          simp only [hpan', Bool.false_eq_true, if_false] at h
          have := ih ctr i
            { st with coroutines := st.coroutines.eraseIdx i } false out h hall
          cases this.1
      · -- the coroutine is called
        have hc' : (st.coroutines.getD i default).closed = false := by
          cases hcl : (st.coroutines.getD i default).closed
          · rfl
          · exact absurd hcl hc
        simp only [hc', Bool.false_eq_true, if_false] at h
        have hupd := applyCall_getD_self (beh ctr) i st hlen
        by_cases hec : (beh ctr).closed = true
        · -- call finished the coroutine: removal, allBlocked cannot end true
          rw [hupd] at h
          simp only [hec, eq_self_iff_true, if_true] at h
          by_cases hep : (beh ctr).panicked = true
          · simp only [hep, eq_self_iff_true, if_true] at h
            injection h with h2
            rw [← h2] at hall
            cases hall
          · have hep' : (beh ctr).panicked = false := by
              cases hh : (beh ctr).panicked
              · rfl
              · exact absurd hh hep
            simp only [hep', Bool.false_eq_true, if_false] at h
            have := ih (ctr + 1) i
              { applyCall (beh ctr) i st with
                  coroutines := (applyCall (beh ctr) i st).coroutines.eraseIdx i }
              false out h hall
            cases this.1
        · -- the coroutine stays live
          have hec' : (beh ctr).closed = false := by
            cases hh : (beh ctr).closed
            · rfl
            · exact absurd hh hec
          rw [hupd] at h
          simp only [hec', Bool.false_eq_true, if_false] at h
          have hlen' : i < (applyCall (beh ctr) i st).coroutines.length := by
            rw [applyCall_length]
            omega
          obtain ⟨h1, h2, h3, h4, h5, h6⟩ :=
            ih (ctr + 1) (i + 1) (applyCall (beh ctr) i st)
              (allB && (beh ctr).keptBlocked) out h hall
          have hkept : (beh ctr).keptBlocked = true := by
            rcases Bool.and_eq_true .. |>.mp h1 with ⟨-, hk⟩
            exact hk
          have hallB : allB = true := by
            rcases Bool.and_eq_true .. |>.mp h1 with ⟨ha, -⟩
            exact ha
          refine ⟨hallB, h2, ?_, ?_, ?_, ?_⟩
          · have : st.sequence ≤ (applyCall (beh ctr) i st).sequence := by
              rw [applyCall_sequence]
              omega
            omega
          · have : st.coroutines.length ≤ (applyCall (beh ctr) i st).coroutines.length := by
              rw [applyCall_length]
              omega
            omega
          · intro j hj hjlen
            rw [h5 j (by omega) (by rw [applyCall_length]; omega)]
            exact applyCall_getD_ne (beh ctr) i st j hjlen (by omega)
          · intro j hij hjlen
            by_cases hji : j = i
            · subst hji
              rw [h5 j (by omega) hlen', hupd]
              exact hkept
            · exact h6 j (by omega) hjlen
    · rw [runPassAux_stop beh fuel ctr i st allB hlen] at h
      injection h with h2
      subst h2
      refine ⟨hall, rfl, Nat.le_refl _, Nat.le_refl _, fun j _ _ => rfl, ?_⟩
      intro j hij hjlen
      simp only at hjlen
      exact absurd hjlen (by omega)

/-- **C1.** `ExecuteUntilAllBlocked` returns success only when, on the final
pass over the coroutine list, every live coroutine reported "kept blocked
since last yield" and the spawn sequence counter is unchanged across that
pass (so no coroutine was spawned during it and none finished, since a
finished coroutine forces `allBlocked = false`); the trivial exception is
the `len(d.coroutines) == 0` break when no coroutines remain.  Conversely,
when a pass ends with some coroutine having made progress or the sequence
counter changed (and coroutines remain and no panic was returned), the pump
runs another pass: the fuelled loop steps to itself on the pass output. -/
theorem executeUntilAllBlocked_success (beh : Nat → CallEffect) (passFuel : Nat) :
    (∀ (fuel ctr : Nat) (st stf : dispatcherImpl),
      executeUntilAllBlocked beh passFuel fuel ctr st = some (.ok stf) →
      stf.coroutines = [] ∨
      ∃ ctr0 st0 out, runPassAux beh passFuel ctr0 0 st0 true = some out ∧
        out.st = stf ∧ out.panicOut = false ∧ out.allBlocked = true ∧
        st0.sequence = stf.sequence ∧
        ∀ c ∈ stf.coroutines, c.keptBlocked = true) ∧
    (∀ (fuel ctr : Nat) (st : dispatcherImpl) (out : PassOut),
      runPassAux beh passFuel ctr 0 st true = some out →
      out.panicOut = false →
      out.st.coroutines ≠ [] →
      (out.allBlocked = false ∨ st.sequence ≠ out.st.sequence) →
      executeUntilAllBlocked beh passFuel (fuel + 1) ctr st =
        executeUntilAllBlocked beh passFuel fuel out.ctr out.st) := by
  constructor
  · intro fuel
    induction fuel with
    | zero =>
      intro ctr st stf h
      cases h
    | succ fuel ih =>
      intro ctr st stf h
      simp only [executeUntilAllBlocked] at h
      cases hp : runPassAux beh passFuel ctr 0 st true with
      | none =>
        rw [hp] at h
        cases h
      | some out =>
        rw [hp] at h
        simp only at h
        by_cases hpan : out.panicOut = true
        · rw [if_pos hpan] at h
          simp at h
        · have hpan' : out.panicOut = false := by
            cases hh : out.panicOut
            · rfl
            · exact absurd hh hpan
          rw [if_neg hpan] at h
          by_cases hlen0 : out.st.coroutines.length = 0
          · rw [if_pos hlen0] at h
            injection h with h2
            injection h2 with h3
            left
            rw [← h3]
            exact List.length_eq_zero.mp hlen0
          · rw [if_neg hlen0] at h
            by_cases hab : (out.allBlocked && decide (st.sequence = out.st.sequence)) = true
            · rw [if_pos hab] at h
              injection h with h2
              injection h2 with h3
              obtain ⟨hb, hseq⟩ := Bool.and_eq_true .. |>.mp hab
              have hseq' : st.sequence = out.st.sequence := of_decide_eq_true hseq
              right
              refine ⟨ctr, st, out, hp, h3, hpan', hb, by rw [← h3, ← hseq'], ?_⟩
              obtain ⟨-, -, -, -, -, hkept⟩ :=
                runPassAux_allBlocked beh passFuel ctr 0 st true out hp hb
              intro c hc
              have hc' : c ∈ out.st.coroutines := by rw [h3]; exact hc
              obtain ⟨j, hcj⟩ := List.get_of_mem hc'
              obtain ⟨hh, hgd⟩ := getD_of_lt out.st.coroutines j.1 default j.2
              have hk := hkept j.1 (Nat.zero_le _) j.2
              rw [hgd] at hk
              rw [← hcj]
              exact hk
            · rw [if_neg hab] at h
              exact ih out.ctr out.st stf h
  · intro fuel ctr st out hp hpan hne hcond
    simp only [executeUntilAllBlocked]
    rw [hp]
    simp only
    rw [if_neg (by simp [hpan])]
    have hlen0 : ¬ out.st.coroutines.length = 0 := by
      intro hz
      exact hne (List.length_eq_zero.mp hz)
    rw [if_neg hlen0]
    have hab : (out.allBlocked && decide (st.sequence = out.st.sequence)) = false := by
      rcases hcond with hcond | hcond
      · simp [hcond]
      · simp [hcond]
    rw [hab]
    simp

/-- Witness for C1: a single coroutine that reports kept-blocked on its first
call and spawns nothing; the pump succeeds after one pass, and that final
pass satisfies the success condition. -/
theorem executeUntilAllBlocked_success_witness :
    ((⟨1, [⟨1, false, true, false⟩]⟩ : dispatcherImpl).coroutines = [] ∨
      ∃ ctr0 st0 out,
        runPassAux (fun _ => ⟨false, true, false, 0⟩) 5 ctr0 0 st0 true = some out ∧
        out.st = (⟨1, [⟨1, false, true, false⟩]⟩ : dispatcherImpl) ∧
        out.panicOut = false ∧ out.allBlocked = true ∧
        st0.sequence = (⟨1, [⟨1, false, true, false⟩]⟩ : dispatcherImpl).sequence ∧
        ∀ c ∈ (⟨1, [⟨1, false, true, false⟩]⟩ : dispatcherImpl).coroutines,
          c.keptBlocked = true) :=
  (executeUntilAllBlocked_success (fun _ => ⟨false, true, false, 0⟩) 5).1
    3 0 ⟨1, [⟨1, false, false, false⟩]⟩ ⟨1, [⟨1, false, true, false⟩]⟩ (by decide)

end Cadence
